import Mathlib

/-!
# SYNCH_SEMAPHORE character driver: the guarded read

Embedding of `src/synch_semaphore/KERN_SRC/synch_semaphore.c`.

The module owns one semaphore (`sample_sem`) and one counter (`fake_val`, a
function-local `static unsigned int`).  The kernel primitives the driver calls
(`down_interruptible`, `up`, `msleep`, `copy_to_user`) are modelled by their
documented contracts; everything decided by the environment (whether a signal
arrives while a caller sleeps on the semaphore, how many bytes of the user
destination cannot be written) is an explicit argument.

Two views of the same code are given:

* `synch_semaphore_read`: one call run from entry to return, as a function;
* `thread_step` / `Step`: the same body cut at its statements, interleaved
  between any number of callers.
-/

set_option linter.unusedVariables false

namespace SynchSemaphore

/-! ## Constants of the source -/

/-- Source line 31: `#define LOCK 0`. -/
def LOCK : Nat := 0

/-- Source line 32: `#define UNLOCK 1`. -/
def UNLOCK : Nat := 1

/-- Source line 33: `#define NMINORS 1`. -/
def NMINORS : Nat := 1

/-- Source line 36: `#define DELAY 5000`. -/
def DELAY : Nat := 5000

/-- Number of values of an `unsigned int` (32 bits): arithmetic on `fake_val` is modulo this. -/
def UINT_MODULUS : Nat := 4294967296

/-- The value of `sizeof(fake_val)`, i.e. `sizeof(unsigned int)`. -/
def SIZEOF_FAKE_VAL : Nat := 4

/-- Kernel errno `EINTR`, what `down_interruptible` reports (negated) when a signal ends the wait. -/
def EINTR : Int := 4

/-- Kernel errno `ERESTARTSYS`. -/
def ERESTARTSYS : Int := 512

/-! ## Kernel primitives -/

/-- Kernel `struct semaphore`, reduced to its count of free slots. -/
structure semaphore where
  count : Nat
deriving DecidableEq, Repr

/-- Kernel `sema_init(&sem, val)`. -/
def sema_init (val : Nat) : semaphore := ⟨val⟩

/--
Kernel `down_interruptible(&sem)`, for a caller that no other thread helps.

With a free slot the slot is taken and `0` is returned, whatever signals are
pending.  Without one the caller sleeps: when a signal arrives (`signal`) the
wait is abandoned, the count is untouched and `-EINTR` is returned; otherwise
the caller sleeps for good and there is no return (`none`).
-/
def down_interruptible (sem : semaphore) (signal : Bool) : Option (Int × semaphore) :=
  if 0 < sem.count then some (0, ⟨sem.count - 1⟩)
  else if signal then some (-EINTR, sem)
  else none

/-- Kernel `up(&sem)`: one slot is given back. -/
def up (sem : semaphore) : semaphore := ⟨sem.count + 1⟩

/-- Byte `i` of the object representation of an `unsigned int` (least significant byte first). -/
def byte_of (v : Nat) (i : Nat) : Nat := v / 256 ^ i % 256

/-- The `unsigned int` stored in the four bytes at the start of a user buffer. -/
def uint_at (buf : Nat → Nat) : Nat :=
  buf 0 + 256 * buf 1 + 65536 * buf 2 + 16777216 * buf 3

/--
Kernel `copy_to_user(to, from, n)`, with `dst` for `to` and `src` for `from`.  User memory is seen from the destination
pointer: `dst i` is the byte at `Ubuff + i`.  `fault` is the number of trailing
bytes of the destination that cannot be written (`0` for a valid destination,
`n` or more for a wholly invalid one).  The leading `n - uncopied` bytes are
written, all other user memory is left alone, and the number of bytes that
were not copied is returned.
-/
def copy_to_user (dst : Nat → Nat) (src : Nat → Nat) (n : Nat) (fault : Nat) :
    Nat × (Nat → Nat) :=
  let uncopied := min fault n
  (uncopied, fun i => if i < n - uncopied then src i else dst i)

/-! ## Module state and observable effects -/

/-- The two objects of the module that `synch_semaphore_read` touches. -/
structure Module where
  /-- Global `struct semaphore sample_sem`. -/
  sample_sem : semaphore
  /-- Function-local `static unsigned int fake_val`. -/
  fake_val : Nat
deriving DecidableEq, Repr

/-- Effects of the read function, in the order they happen. -/
inductive Event
  /-- Line 59: `printk(" In the read function \n")`. -/
  | printk
  /-- Line 62: `down_interruptible` returned `ret`. -/
  | down (ret : Int)
  /-- Line 69: `msleep(ms)`. -/
  | msleep (ms : Nat)
  /-- Line 72: `fake_val++`, giving `val`. -/
  | incr (val : Nat)
  /-- Line 75: `copy_to_user` of `n` bytes holding `val`, of which `uncopied` were not copied. -/
  | copy (val : Nat) (n : Nat) (uncopied : Nat)
  /-- Line 78: `up`. -/
  | up
deriving DecidableEq, Repr

/-- What one call of the read function leaves behind. -/
structure ReadResult where
  /-- The `ssize_t` returned. -/
  ret : Int
  /-- Module state at return. -/
  m : Module
  /-- User memory at `Ubuff` at return. -/
  Ubuff : Nat → Nat
  /-- The file offset `*offp` at return. -/
  offp : Int
  /-- The effects performed. -/
  trace : List Event

/-- The module state set up by `synch_semaphore_init` (line 107) together with the
initialiser of `fake_val` (line 57). -/
def synch_semaphore_init : Module := ⟨sema_init UNLOCK, 10⟩

/--
Source lines 55-82, `synch_semaphore_read(filp, Ubuff, count, offp)`.

`signal` and `fault` are the environment of the call (see `down_interruptible`
and `copy_to_user`).  `none` is a call that never returns because it sleeps on
the semaphore for good.
-/
def synch_semaphore_read (m : Module) (Ubuff : Nat → Nat) (count : Nat) (offp : Int)
    (signal : Bool) (fault : Nat) : Option ReadResult :=
  match down_interruptible m.sample_sem signal with
  | none => none
  | some (r, sem1) =>
    if r ≠ 0 then
      some ⟨-ERESTARTSYS, ⟨sem1, m.fake_val⟩, Ubuff, offp, [Event.printk, Event.down r]⟩
    else
      let fake_val := (m.fake_val + 1) % UINT_MODULUS
      let c := copy_to_user Ubuff (byte_of fake_val) SIZEOF_FAKE_VAL fault
      let sem2 := up sem1
      some ⟨(SIZEOF_FAKE_VAL : Int), ⟨sem2, fake_val⟩, c.2, offp,
        [Event.printk, Event.down r, Event.msleep DELAY, Event.incr fake_val,
         Event.copy fake_val SIZEOF_FAKE_VAL c.1, Event.up]⟩

/-- Whether a call entering with module state `m` gets the semaphore:
`down_interruptible` returns `0`. -/
def acquires (m : Module) (signal : Bool) : Bool :=
  match down_interruptible m.sample_sem signal with
  | some (r, _) => decide (r = 0)
  | none => false

/-- Whether the wait of a call entering with module state `m` is aborted:
`down_interruptible` returns a nonzero value. -/
def aborted (m : Module) (signal : Bool) : Bool :=
  match down_interruptible m.sample_sem signal with
  | some (r, _) => decide (r ≠ 0)
  | none => false

/-- The value the caller finds in its buffer after a call. -/
def delivered (r : ReadResult) : Nat := uint_at r.Ubuff

/-! ## Calls one after another -/

/-- The arguments and the environment of one call. -/
structure Call where
  Ubuff : Nat → Nat
  count : Nat
  offp : Int
  signal : Bool
  fault : Nat

/-- One call, with its arguments packed. -/
def read_call (m : Module) (c : Call) : Option ReadResult :=
  synch_semaphore_read m c.Ubuff c.count c.offp c.signal c.fault

/-- The calls of a list run one after another, each starting in the module
state the one before left.  The result is the final module state and the
results of the calls in order, or `none` when some call never returns. -/
def run_reads : Module → List Call → Option (Module × List ReadResult)
  | m, [] => some (m, [])
  | m, c :: cs =>
    match read_call m c with
    | none => none
    | some r =>
      match run_reads r.m cs with
      | none => none
      | some (m1, rs) => some (m1, r :: rs)

/-! ## The same body, statement by statement, for interleaved callers -/

/-- Where a caller stands in `synch_semaphore_read`. -/
inductive PC
  /-- Before line 62 (`down_interruptible`). -/
  | entry
  /-- Semaphore taken, before line 69 (`msleep`). -/
  | held
  /-- Before line 72 (`fake_val++`). -/
  | slept
  /-- Before line 75 (`copy_to_user`). -/
  | incremented
  /-- Before line 78 (`up`). -/
  | copied
  /-- The call has returned `ret`. -/
  | returned (ret : Int)
deriving DecidableEq, Repr

/-- One caller inside (or past) the read function. -/
structure Thread where
  pc : PC
  Ubuff : Nat → Nat
  trace : List Event

/-- The caller is between its successful `down_interruptible` and its `up`. -/
def holds : PC → Bool
  | PC.held => true
  | PC.slept => true
  | PC.incremented => true
  | PC.copied => true
  | _ => false

/-- The next statement of the caller reads or writes `fake_val`
(line 72 writes it, line 75 reads it). -/
def touches_counter : PC → Bool
  | PC.slept => true
  | PC.incremented => true
  | _ => false

/--
One statement of one caller.  `none`: the caller cannot move now (it sleeps in
`down_interruptible` with no free slot and no signal, or it has returned).
-/
def thread_step (m : Module) (t : Thread) (signal : Bool) (fault : Nat) :
    Option (Module × Thread) :=
  match t.pc with
  | PC.entry =>
    match down_interruptible m.sample_sem signal with
    | none => none
    | some (r, sem1) =>
      if r ≠ 0 then
        some (⟨sem1, m.fake_val⟩,
          ⟨PC.returned (-ERESTARTSYS), t.Ubuff, t.trace ++ [Event.printk, Event.down r]⟩)
      else
        some (⟨sem1, m.fake_val⟩,
          ⟨PC.held, t.Ubuff, t.trace ++ [Event.printk, Event.down r]⟩)
  | PC.held =>
    some (m, ⟨PC.slept, t.Ubuff, t.trace ++ [Event.msleep DELAY]⟩)
  | PC.slept =>
    let fake_val := (m.fake_val + 1) % UINT_MODULUS
    some (⟨m.sample_sem, fake_val⟩,
      ⟨PC.incremented, t.Ubuff, t.trace ++ [Event.incr fake_val]⟩)
  | PC.incremented =>
    let c := copy_to_user t.Ubuff (byte_of m.fake_val) SIZEOF_FAKE_VAL fault
    some (m, ⟨PC.copied, c.2, t.trace ++ [Event.copy m.fake_val SIZEOF_FAKE_VAL c.1]⟩)
  | PC.copied =>
    some (⟨up m.sample_sem, m.fake_val⟩,
      ⟨PC.returned (SIZEOF_FAKE_VAL : Int), t.Ubuff, t.trace ++ [Event.up]⟩)
  | PC.returned _ => none

/-- A caller left alone runs `n` statements (fewer if it returns or cannot move). -/
def thread_run : Nat → Module → Thread → Bool → Nat → Module × Thread
  | 0, m, t, _, _ => (m, t)
  | n + 1, m, t, signal, fault =>
    match thread_step m t signal fault with
    | none => (m, t)
    | some (m1, t1) => thread_run n m1 t1 signal fault

/-- The device with its callers. -/
structure System where
  m : Module
  threads : List Thread

/-- The device after `synch_semaphore_init`, before any call. -/
def System.init : System := ⟨synch_semaphore_init, []⟩

/-- One move of the system: a new caller enters the read function, or one of
the callers executes its next statement, with whatever the environment
decides for it. -/
inductive Step : System → System → Prop
  | call (s : System) (Ubuff : Nat → Nat) :
      Step s ⟨s.m, s.threads ++ [⟨PC.entry, Ubuff, []⟩]⟩
  | run (s : System) (i : Nat) (t : Thread) (signal : Bool) (fault : Nat)
      (m1 : Module) (t1 : Thread) :
      s.threads[i]? = some t →
      thread_step s.m t signal fault = some (m1, t1) →
      Step s ⟨m1, s.threads.set i t1⟩

/-- States the system can be in: any number of moves from the initial one. -/
inductive Reachable : System → Prop
  | init : Reachable System.init
  | step (s s1 : System) : Reachable s → Step s s1 → Reachable s1

/-- A caller at index `i` is inside the critical section. -/
def holder (s : System) (i : Nat) : Prop :=
  ∃ t, s.threads[i]? = some t ∧ holds t.pc = true

/-- Either the semaphore is free and nobody is inside the critical section, or
it is taken and exactly one caller is inside. -/
def MutexInv (s : System) : Prop :=
  (s.m.sample_sem.count = 1 ∧
    ∀ (i : Nat) (t : Thread), s.threads[i]? = some t → holds t.pc = false) ∨
  (s.m.sample_sem.count = 0 ∧
    ∃ (i : Nat) (t : Thread), s.threads[i]? = some t ∧ holds t.pc = true ∧
      ∀ (j : Nat) (u : Thread), j ≠ i → s.threads[j]? = some u → holds u.pc = false)

/-! ## Concrete inputs -/

/-- A call with a destination that can be written (every byte of it 7 beforehand). -/
def writable_call : Call := ⟨fun _ => 7, 4, 0, false, 0⟩

/-- A call with a destination none of whose bytes can be written. -/
def unwritable_call : Call := ⟨fun _ => 7, 4, 0, false, 4⟩

/-- The result of a call `c` that acquired a semaphore of count 1 and moved the
counter to `v`. -/
def acquired_result (v : Nat) (c : Call) : ReadResult :=
  ⟨4, ⟨⟨1⟩, v⟩, (copy_to_user c.Ubuff (byte_of v) 4 c.fault).2, c.offp,
    [Event.printk, Event.down 0, Event.msleep 5000, Event.incr v,
     Event.copy v 4 (min c.fault 4), Event.up]⟩

/-- Two callers on the initialised device: the first has taken the semaphore
and is about to sleep, the second has just entered the read function. -/
def two_callers : System :=
  ⟨⟨⟨0⟩, 10⟩,
   [⟨PC.held, fun _ => 7, [Event.printk, Event.down 0]⟩, ⟨PC.entry, fun _ => 7, []⟩]⟩

/-! ## Basic facts about the primitives -/

theorem acquires_iff (m : Module) (signal : Bool) :
    acquires m signal = true ↔ 0 < m.sample_sem.count := by
  unfold acquires down_interruptible
  by_cases h : 0 < m.sample_sem.count
  · simp [h]
  · cases signal <;> simp [h, EINTR]

theorem aborted_iff (m : Module) (signal : Bool) :
    aborted m signal = true ↔ m.sample_sem.count = 0 ∧ signal = true := by
  unfold aborted down_interruptible
  by_cases h : 0 < m.sample_sem.count
  · simp [h]; omega
  · have h0 : m.sample_sem.count = 0 := by omega
    cases signal <;> simp [h0, EINTR]

theorem up_down (sem : semaphore) (h : 0 < sem.count) : up ⟨sem.count - 1⟩ = sem := by
  cases sem with
  | mk c =>
    simp only [up]
    congr 1
    simp only at h
    omega

/-- The result of a call that gets the semaphore, in closed form. -/
theorem read_of_acquires (m : Module) (Ubuff : Nat → Nat) (count : Nat) (offp : Int)
    (signal : Bool) (fault : Nat) (h : acquires m signal = true) :
    synch_semaphore_read m Ubuff count offp signal fault =
      some ⟨4, ⟨m.sample_sem, (m.fake_val + 1) % UINT_MODULUS⟩,
        (copy_to_user Ubuff (byte_of ((m.fake_val + 1) % UINT_MODULUS)) 4 fault).2, offp,
        [Event.printk, Event.down 0, Event.msleep 5000,
         Event.incr ((m.fake_val + 1) % UINT_MODULUS),
         Event.copy ((m.fake_val + 1) % UINT_MODULUS) 4 (min fault 4), Event.up]⟩ := by
  have hc : 0 < m.sample_sem.count := (acquires_iff m signal).1 h
  unfold synch_semaphore_read down_interruptible
  simp only [hc, if_true]
  simp [up_down m.sample_sem hc, SIZEOF_FAKE_VAL, DELAY, copy_to_user]

/-- The result of a call whose wait is aborted, in closed form. -/
theorem read_of_aborted (m : Module) (Ubuff : Nat → Nat) (count : Nat) (offp : Int)
    (signal : Bool) (fault : Nat) (h : aborted m signal = true) :
    synch_semaphore_read m Ubuff count offp signal fault =
      some ⟨-512, m, Ubuff, offp, [Event.printk, Event.down (-4)]⟩ := by
  obtain ⟨h0, hs⟩ := (aborted_iff m signal).1 h
  unfold synch_semaphore_read down_interruptible
  simp [h0, hs, EINTR, ERESTARTSYS]

/-- Four bytes written in full hold the value they were made from. -/
theorem uint_at_copy (buf : Nat → Nat) (v : Nat) (hv : v < UINT_MODULUS) :
    uint_at (copy_to_user buf (byte_of v) 4 0).2 = v := by
  unfold UINT_MODULUS at hv
  simp only [uint_at, copy_to_user, byte_of]
  norm_num
  omega

/-- A caller left alone on a device with a free slot goes through the five
statements and ends where `synch_semaphore_read` says. -/
theorem thread_run_of_acquires (m : Module) (Ubuff : Nat → Nat) (signal : Bool) (fault : Nat)
    (h : acquires m signal = true) :
    thread_run 5 m ⟨PC.entry, Ubuff, []⟩ signal fault =
      (⟨m.sample_sem, (m.fake_val + 1) % UINT_MODULUS⟩,
       ⟨PC.returned 4,
        (copy_to_user Ubuff (byte_of ((m.fake_val + 1) % UINT_MODULUS)) 4 fault).2,
        [Event.printk, Event.down 0, Event.msleep 5000,
         Event.incr ((m.fake_val + 1) % UINT_MODULUS),
         Event.copy ((m.fake_val + 1) % UINT_MODULUS) 4 (min fault 4), Event.up]⟩) := by
  have hc : 0 < m.sample_sem.count := (acquires_iff m signal).1 h
  simp [thread_run, thread_step, down_interruptible, hc, up_down m.sample_sem hc,
    SIZEOF_FAKE_VAL, DELAY, copy_to_user]

/-! ## Claims about one call -/

/-- C3: when the wait in `down_interruptible` is aborted, the call returns
`-ERESTARTSYS` at once and nothing has changed: the module state (counter and
semaphore count) is the one at entry, the caller's buffer and the file offset
are untouched, and the only effects are the `printk` and the failed
`down_interruptible` (no `msleep`, no increment, no copy, no `up`). -/
theorem C3_interrupted_read_changes_nothing (m : Module) (Ubuff : Nat → Nat) (count : Nat)
    (offp : Int) (signal : Bool) (fault : Nat) (h : aborted m signal = true) :
    ∃ r, synch_semaphore_read m Ubuff count offp signal fault = some r ∧
      r.ret = -ERESTARTSYS ∧ r.m = m ∧ r.m.fake_val = m.fake_val ∧
      r.m.sample_sem.count = m.sample_sem.count ∧ r.Ubuff = Ubuff ∧ r.offp = offp ∧
      r.trace = [Event.printk, Event.down (-EINTR)] := by
  refine ⟨_, read_of_aborted m Ubuff count offp signal fault h, ?_⟩
  simp [ERESTARTSYS, EINTR]

theorem C3_interrupted_read_changes_nothing_witness :
    aborted ⟨⟨0⟩, 10⟩ true = true ∧
    ∃ r, synch_semaphore_read ⟨⟨0⟩, 10⟩ (fun _ => 7) 4 0 true 0 = some r ∧
      r.ret = -ERESTARTSYS ∧ r.m = ⟨⟨0⟩, 10⟩ ∧ r.m.fake_val = 10 ∧
      r.m.sample_sem.count = 0 ∧ r.Ubuff = (fun _ => 7) ∧ r.offp = 0 ∧
      r.trace = [Event.printk, Event.down (-EINTR)] :=
  ⟨by decide, C3_interrupted_read_changes_nothing ⟨⟨0⟩, 10⟩ (fun _ => 7) 4 0 true 0 (by decide)⟩

/-- C4 (the code at the failing input): on the freshly initialised device, a
call whose destination cannot be written at all (`copy_to_user` reports all 4
bytes uncopied) still returns `4`, not a negative value; the buffer is
untouched and the counter has moved to 11. -/
theorem C4_copy_fault_returns_size :
    ∃ r, synch_semaphore_read synch_semaphore_init (fun _ => 7) 4 0 false 4 = some r ∧
      Event.copy 11 4 4 ∈ r.trace ∧ r.ret = 4 ∧ ¬ r.ret < 0 ∧
      r.Ubuff = (fun _ => 7) ∧ r.m.fake_val = 11 := by
  refine ⟨_, read_of_acquires synch_semaphore_init (fun _ => 7) 4 0 false 4 (by decide), ?_⟩
  simp [synch_semaphore_init, UINT_MODULUS, copy_to_user]

/-- C1, as stated, fails twice.  With the counter at `UINT_MAX` an acquiring call
stores and delivers `0`, not `UINT_MAX + 1`; and with the counter at 10 an
acquiring call whose destination is not writable stores 11 but leaves the
caller's buffer as it was (here every byte 7), so 11 is not delivered. -/
theorem C1_counterexample :
    (acquires ⟨⟨1⟩, 4294967295⟩ false = true ∧
      ∃ r, synch_semaphore_read ⟨⟨1⟩, 4294967295⟩ (fun _ => 7) 4 0 false 0 = some r ∧
        r.m.fake_val = 0 ∧ delivered r = 0 ∧ r.m.fake_val ≠ 4294967295 + 1) ∧
    (acquires ⟨⟨1⟩, 10⟩ false = true ∧
      ∃ r, synch_semaphore_read ⟨⟨1⟩, 10⟩ (fun _ => 7) 4 0 false 4 = some r ∧
        r.m.fake_val = 11 ∧ r.Ubuff = (fun _ => 7) ∧ delivered r ≠ 10 + 1) := by
  refine ⟨⟨by decide, _, read_of_acquires _ _ _ _ _ _ (by decide), ?_⟩,
    ⟨by decide, _, read_of_acquires _ _ _ _ _ _ (by decide), ?_⟩⟩
  · simp [UINT_MODULUS, delivered, uint_at, copy_to_user, byte_of]
  · simp [UINT_MODULUS, delivered, uint_at, copy_to_user]

/-- C1 (amended): a call that acquires the semaphore at counter value `c` returns
with `(c + 1) mod 2^32` in `fake_val`, which is `c + 1` whenever `c + 1` fits an
`unsigned int`; and when `copy_to_user` copies all the bytes the caller's buffer
holds that same post-increment value.  From the initial state (counter 10),
with destinations that can be written, the first read delivers 11 and a second
read 12. -/
theorem C1_read_stores_and_delivers_increment (m : Module) (Ubuff : Nat → Nat) (count : Nat)
    (offp : Int) (signal : Bool) (fault : Nat) (h : acquires m signal = true) :
    (∃ r, synch_semaphore_read m Ubuff count offp signal fault = some r ∧
      r.m.fake_val = (m.fake_val + 1) % UINT_MODULUS ∧
      (m.fake_val + 1 < UINT_MODULUS → r.m.fake_val = m.fake_val + 1) ∧
      (fault = 0 → delivered r = r.m.fake_val)) ∧
    (∃ r1 r2, synch_semaphore_read synch_semaphore_init Ubuff count offp signal 0 = some r1 ∧
      delivered r1 = 11 ∧
      synch_semaphore_read r1.m Ubuff count offp signal 0 = some r2 ∧
      delivered r2 = 12) := by
  constructor
  · refine ⟨_, read_of_acquires m Ubuff count offp signal fault h, rfl, ?_, ?_⟩
    · intro hlt
      exact Nat.mod_eq_of_lt hlt
    · intro hf
      subst hf
      exact uint_at_copy Ubuff _ (Nat.mod_lt _ (by decide))
  · have h1 : acquires synch_semaphore_init signal = true :=
      (acquires_iff _ _).2 (by decide)
    refine ⟨_, _, read_of_acquires synch_semaphore_init Ubuff count offp signal 0 h1, ?_,
      read_of_acquires _ Ubuff count offp signal 0 ((acquires_iff _ _).2 Nat.one_pos), ?_⟩
    · exact uint_at_copy Ubuff _ (Nat.mod_lt _ (by decide))
    · exact uint_at_copy Ubuff _ (Nat.mod_lt _ (by decide))

/-- C1 (amended), at counter 41 with a writable destination: 42 is stored and delivered. -/
theorem C1_read_stores_and_delivers_increment_witness :
    acquires ⟨⟨1⟩, 41⟩ false = true ∧
    ((∃ r, synch_semaphore_read ⟨⟨1⟩, 41⟩ (fun _ => 7) 4 0 false 0 = some r ∧
      r.m.fake_val = (41 + 1) % UINT_MODULUS ∧
      (41 + 1 < UINT_MODULUS → r.m.fake_val = 41 + 1) ∧
      (0 = 0 → delivered r = r.m.fake_val)) ∧
    (∃ r1 r2, synch_semaphore_read synch_semaphore_init (fun _ => 7) 4 0 false 0 = some r1 ∧
      delivered r1 = 11 ∧
      synch_semaphore_read r1.m (fun _ => 7) 4 0 false 0 = some r2 ∧
      delivered r2 = 12)) :=
  ⟨by decide,
   C1_read_stores_and_delivers_increment ⟨⟨1⟩, 41⟩ (fun _ => 7) 4 0 false 0 (by decide)⟩

/-- Every call that returns either was aborted or acquired the semaphore. -/
theorem aborted_or_acquires_of_returns (m : Module) (Ubuff : Nat → Nat) (count : Nat)
    (offp : Int) (signal : Bool) (fault : Nat) (r : ReadResult)
    (hr : synch_semaphore_read m Ubuff count offp signal fault = some r) :
    aborted m signal = true ∨ acquires m signal = true := by
  by_cases hc : 0 < m.sample_sem.count
  · exact Or.inr ((acquires_iff m signal).2 hc)
  · have h0 : m.sample_sem.count = 0 := by omega
    cases signal with
    | true => exact Or.inl ((aborted_iff m true).2 ⟨h0, rfl⟩)
    | false =>
      exfalso
      simp [synch_semaphore_read, down_interruptible, h0] at hr

/-- C5: on every path on which the call returns (aborted wait, copy that
completes, copy that fails) the semaphore is at return what it was at entry;
`up` is performed once when `down_interruptible` returned 0 and not at all
otherwise.  On an unlocked device the call does return whatever the copy does,
the semaphore is unlocked afterwards, and any following read acquires it and
returns. -/
theorem C5_semaphore_restored_on_every_path (m : Module) (Ubuff : Nat → Nat) (count : Nat)
    (offp : Int) (signal : Bool) (fault : Nat) :
    (∀ r, synch_semaphore_read m Ubuff count offp signal fault = some r →
      r.m.sample_sem = m.sample_sem ∧
      r.trace.count Event.up = r.trace.count (Event.down 0) ∧
      (acquires m signal = true → r.trace.count Event.up = 1) ∧
      (aborted m signal = true → r.trace.count Event.up = 0)) ∧
    (m.sample_sem = sema_init UNLOCK →
      ∃ r, synch_semaphore_read m Ubuff count offp signal fault = some r ∧
        r.m.sample_sem = sema_init UNLOCK ∧
        ∀ (Ubuff2 : Nat → Nat) (count2 : Nat) (offp2 : Int) (signal2 : Bool) (fault2 : Nat),
          acquires r.m signal2 = true ∧
          ∃ r2, synch_semaphore_read r.m Ubuff2 count2 offp2 signal2 fault2 = some r2 ∧
            Event.down 0 ∈ r2.trace ∧ r2.m.sample_sem = sema_init UNLOCK) := by
  constructor
  · intro r hr
    rcases aborted_or_acquires_of_returns m Ubuff count offp signal fault r hr with hab | hac
    · have hnot : ¬ acquires m signal = true := by
        rw [acquires_iff]
        have := ((aborted_iff m signal).1 hab).1
        omega
      rw [read_of_aborted m Ubuff count offp signal fault hab] at hr
      cases hr
      simp [hab, hnot]
    · have hnot : ¬ aborted m signal = true := by
        rw [aborted_iff]
        have := (acquires_iff m signal).1 hac
        omega
      rw [read_of_acquires m Ubuff count offp signal fault hac] at hr
      cases hr
      simp [hac, hnot]
  · intro hm
    have hac : acquires m signal = true := by
      rw [acquires_iff, hm]
      exact Nat.one_pos
    refine ⟨_, read_of_acquires m Ubuff count offp signal fault hac, hm, ?_⟩
    intro Ubuff2 count2 offp2 signal2 fault2
    have hac2 : acquires ⟨m.sample_sem, (m.fake_val + 1) % UINT_MODULUS⟩ signal2 = true := by
      rw [acquires_iff]
      show 0 < m.sample_sem.count
      rw [hm]
      exact Nat.one_pos
    refine ⟨hac2, _, read_of_acquires _ Ubuff2 count2 offp2 signal2 fault2 hac2, ?_, hm⟩
    simp

/-- C5, on the initialised device with a destination that cannot be written:
the failing read returns with the semaphore as it found it, unlocked, after
one `up`, and the next read acquires it. -/
theorem C5_semaphore_restored_on_every_path_witness :
    (synch_semaphore_read synch_semaphore_init (fun _ => 7) 4 0 false 4 =
        some ⟨4, ⟨⟨1⟩, 11⟩, (fun _ => 7), 0,
          [Event.printk, Event.down 0, Event.msleep 5000, Event.incr 11,
           Event.copy 11 4 4, Event.up]⟩ ∧
      (⟨1⟩ : semaphore) = synch_semaphore_init.sample_sem ∧
      [Event.printk, Event.down 0, Event.msleep 5000, Event.incr 11,
        Event.copy 11 4 4, Event.up].count Event.up
        = [Event.printk, Event.down 0, Event.msleep 5000, Event.incr 11,
        Event.copy 11 4 4, Event.up].count (Event.down 0)) ∧
    synch_semaphore_init.sample_sem = sema_init UNLOCK ∧
    ∃ r, synch_semaphore_read synch_semaphore_init (fun _ => 7) 4 0 false 4 = some r ∧
      r.m.sample_sem = sema_init UNLOCK ∧
      ∀ (Ubuff2 : Nat → Nat) (count2 : Nat) (offp2 : Int) (signal2 : Bool) (fault2 : Nat),
        acquires r.m signal2 = true ∧
        ∃ r2, synch_semaphore_read r.m Ubuff2 count2 offp2 signal2 fault2 = some r2 ∧
          Event.down 0 ∈ r2.trace ∧ r2.m.sample_sem = sema_init UNLOCK :=
  have hread : synch_semaphore_read synch_semaphore_init (fun _ => 7) 4 0 false 4 =
      some ⟨4, ⟨⟨1⟩, 11⟩, (fun _ => 7), 0,
        [Event.printk, Event.down 0, Event.msleep 5000, Event.incr 11,
         Event.copy 11 4 4, Event.up]⟩ := by
    rw [read_of_acquires synch_semaphore_init (fun _ => 7) 4 0 false 4 (by decide)]
    simp [synch_semaphore_init, sema_init, UNLOCK, UINT_MODULUS, copy_to_user]
  have hall := C5_semaphore_restored_on_every_path synch_semaphore_init (fun _ => 7) 4 0 false 4
  ⟨⟨hread, (hall.1 _ hread).1, (hall.1 _ hread).2.1⟩, rfl, hall.2 rfl⟩

/-- C6: a call that acquires the semaphore and whose copy completes returns 4
(`sizeof(unsigned int)`), has written exactly the four bytes of the counter at
the start of the caller's buffer and no byte after them, and has left the file
offset as it was; the `count` argument and the file offset have no influence,
also for `count < 4` and `count = 0`. -/
theorem C6_returns_fixed_size_ignoring_count (m : Module) (Ubuff : Nat → Nat) (count : Nat)
    (offp : Int) (signal : Bool) (fault : Nat) (h : acquires m signal = true)
    (hcopy : (copy_to_user Ubuff (byte_of ((m.fake_val + 1) % UINT_MODULUS))
      SIZEOF_FAKE_VAL fault).1 = 0) :
    ∃ r, synch_semaphore_read m Ubuff count offp signal fault = some r ∧
      r.ret = 4 ∧ r.ret = (SIZEOF_FAKE_VAL : Int) ∧
      Event.copy r.m.fake_val 4 0 ∈ r.trace ∧
      (∀ i, i < 4 → r.Ubuff i = byte_of r.m.fake_val i) ∧
      (∀ i, 4 ≤ i → r.Ubuff i = Ubuff i) ∧
      r.offp = offp ∧
      ∀ (count2 : Nat) (offp2 : Int),
        synch_semaphore_read m Ubuff count2 offp2 signal fault =
          some ⟨r.ret, r.m, r.Ubuff, offp2, r.trace⟩ := by
  have hf : min fault 4 = 0 := by
    simpa [copy_to_user, SIZEOF_FAKE_VAL] using hcopy
  refine ⟨_, read_of_acquires m Ubuff count offp signal fault h, rfl, rfl, ?_, ?_, ?_, rfl, ?_⟩
  · simp [hf]
  · intro i hi
    simp [copy_to_user, hf, hi]
  · intro i hi
    have : ¬ i < 4 := by omega
    simp [copy_to_user, hf, this]
  · intro count2 offp2
    exact read_of_acquires m Ubuff count2 offp2 signal fault h

/-- C6 with `count = 0` on the initialised device: 4 is returned and the bytes of 11 are written. -/
theorem C6_returns_fixed_size_ignoring_count_witness :
    acquires synch_semaphore_init false = true ∧
    ∃ r, synch_semaphore_read synch_semaphore_init (fun _ => 7) 0 100 false 0 = some r ∧
      r.ret = 4 ∧ r.ret = (SIZEOF_FAKE_VAL : Int) ∧
      Event.copy r.m.fake_val 4 0 ∈ r.trace ∧
      (∀ i, i < 4 → r.Ubuff i = byte_of r.m.fake_val i) ∧
      (∀ i, 4 ≤ i → r.Ubuff i = (fun _ => 7) i) ∧
      r.offp = 100 ∧
      ∀ (count2 : Nat) (offp2 : Int),
        synch_semaphore_read synch_semaphore_init (fun _ => 7) count2 offp2 false 0 =
          some ⟨r.ret, r.m, r.Ubuff, offp2, r.trace⟩ :=
  ⟨by decide,
   C6_returns_fixed_size_ignoring_count synch_semaphore_init (fun _ => 7) 0 100 false 0
     (by decide) (by decide)⟩

/-- C10: a call that acquires the semaphore returns, and its effects after the
`printk` are exactly, in this order: the successful `down_interruptible`, one
`msleep(DELAY)` with `DELAY = 5000`, one increment of the counter, one
`copy_to_user` of the four bytes of the incremented counter, one `up`.
Followed statement by statement, the caller is inside the critical section,
with the semaphore count one below its value at entry, before each of the
four statements `msleep`, increment, copy and `up`, and after the fifth
statement it has returned with the result of the call. -/
theorem C10_effects_in_order (m : Module) (Ubuff : Nat → Nat) (count : Nat)
    (offp : Int) (signal : Bool) (fault : Nat) (h : acquires m signal = true) :
    ∃ r, synch_semaphore_read m Ubuff count offp signal fault = some r ∧
      r.trace = [Event.printk, Event.down 0, Event.msleep DELAY, Event.incr r.m.fake_val,
        Event.copy r.m.fake_val SIZEOF_FAKE_VAL (min fault SIZEOF_FAKE_VAL), Event.up] ∧
      DELAY = 5000 ∧
      r.m.fake_val = (m.fake_val + 1) % UINT_MODULUS ∧
      (∀ n, 1 ≤ n → n ≤ 4 →
        holds (thread_run n m ⟨PC.entry, Ubuff, []⟩ signal fault).2.pc = true ∧
        (thread_run n m ⟨PC.entry, Ubuff, []⟩ signal fault).1.sample_sem.count + 1
          = m.sample_sem.count ∧
        (thread_run n m ⟨PC.entry, Ubuff, []⟩ signal fault).2.trace = r.trace.take (n + 1)) ∧
      thread_run 5 m ⟨PC.entry, Ubuff, []⟩ signal fault
        = (r.m, ⟨PC.returned r.ret, r.Ubuff, r.trace⟩) := by
  have hc : 0 < m.sample_sem.count := (acquires_iff m signal).1 h
  refine ⟨_, read_of_acquires m Ubuff count offp signal fault h, ?_, rfl, rfl, ?_,
    thread_run_of_acquires m Ubuff signal fault h⟩
  · simp [DELAY, SIZEOF_FAKE_VAL]
  · intro n h1 h4
    have hn : n = 1 ∨ n = 2 ∨ n = 3 ∨ n = 4 := by omega
    rcases hn with rfl | rfl | rfl | rfl <;>
      simp [thread_run, thread_step, down_interruptible, hc, holds, DELAY, SIZEOF_FAKE_VAL,
        copy_to_user] <;>
      omega

/-- C10 on the initialised device. -/
theorem C10_effects_in_order_witness :
    acquires synch_semaphore_init false = true ∧
    ∃ r, synch_semaphore_read synch_semaphore_init (fun _ => 7) 4 0 false 0 = some r ∧
      r.trace = [Event.printk, Event.down 0, Event.msleep DELAY, Event.incr r.m.fake_val,
        Event.copy r.m.fake_val SIZEOF_FAKE_VAL (min 0 SIZEOF_FAKE_VAL), Event.up] ∧
      DELAY = 5000 ∧
      r.m.fake_val = (synch_semaphore_init.fake_val + 1) % UINT_MODULUS ∧
      (∀ n, 1 ≤ n → n ≤ 4 →
        holds (thread_run n synch_semaphore_init ⟨PC.entry, (fun _ => 7), []⟩ false 0).2.pc
          = true ∧
        (thread_run n synch_semaphore_init
          ⟨PC.entry, (fun _ => 7), []⟩ false 0).1.sample_sem.count + 1
          = synch_semaphore_init.sample_sem.count ∧
        (thread_run n synch_semaphore_init ⟨PC.entry, (fun _ => 7), []⟩ false 0).2.trace
          = r.trace.take (n + 1)) ∧
      thread_run 5 synch_semaphore_init ⟨PC.entry, (fun _ => 7), []⟩ false 0
        = (r.m, ⟨PC.returned r.ret, r.Ubuff, r.trace⟩) :=
  ⟨by decide, C10_effects_in_order synch_semaphore_init (fun _ => 7) 4 0 false 0 (by decide)⟩

/-! ## Calls one after another on a device with a free slot -/

/-- On a device whose semaphore has a free slot every call of a sequence
acquires and returns; call number `i` (from 0) leaves `fake_val` at the entry
value plus `i + 1`, modulo `2^32`, and the semaphore as it was. -/
theorem run_reads_of_free (calls : List Call) :
    ∀ m : Module, 0 < m.sample_sem.count →
      ∃ m1 rs, run_reads m calls = some (m1, rs) ∧
        m1.sample_sem = m.sample_sem ∧
        m1.fake_val % UINT_MODULUS = (m.fake_val + calls.length) % UINT_MODULUS ∧
        rs.length = calls.length ∧
        ∀ i c r, calls[i]? = some c → rs[i]? = some r →
          r.ret = 4 ∧
          r.m = ⟨m.sample_sem, (m.fake_val + i + 1) % UINT_MODULUS⟩ ∧
          r.Ubuff = (copy_to_user c.Ubuff
            (byte_of ((m.fake_val + i + 1) % UINT_MODULUS)) 4 c.fault).2 := by
  induction calls with
  | nil =>
    intro m hm
    refine ⟨m, [], rfl, rfl, rfl, rfl, ?_⟩
    intro i c r hc
    simp at hc
  | cons c0 cs ih =>
    intro m hm
    have hac : acquires m c0.signal = true := (acquires_iff m c0.signal).2 hm
    have h0 : ∃ r0, read_call m c0 = some r0 ∧ r0.ret = 4 ∧
        r0.m = ⟨m.sample_sem, (m.fake_val + 1) % UINT_MODULUS⟩ ∧
        r0.Ubuff = (copy_to_user c0.Ubuff
          (byte_of ((m.fake_val + 1) % UINT_MODULUS)) 4 c0.fault).2 :=
      ⟨_, read_of_acquires m c0.Ubuff c0.count c0.offp c0.signal c0.fault hac, rfl, rfl, rfl⟩
    obtain ⟨r0, hr0, hret0, hm0, hbuf0⟩ := h0
    obtain ⟨m1, rs, hrun, hsem, hval, hlen, hall⟩ :=
      ih ⟨m.sample_sem, (m.fake_val + 1) % UINT_MODULUS⟩ hm
    refine ⟨m1, r0 :: rs, ?_, hsem, ?_, ?_, ?_⟩
    · simp only [run_reads, hr0, hm0, hrun]
    · rw [hval]
      simp only [UINT_MODULUS, List.length_cons]
      omega
    · simp [hlen]
    · intro i c r hc hr
      cases i with
      | zero =>
        simp only [List.getElem?_cons_zero, Option.some.injEq] at hc hr
        subst hc
        subst hr
        exact ⟨hret0, hm0, hbuf0⟩
      | succ j =>
        simp only [List.getElem?_cons_succ] at hc hr
        obtain ⟨h1, h2, h3⟩ := hall j c r hc hr
        have harith : ((m.fake_val + 1) % UINT_MODULUS + j + 1) % UINT_MODULUS
            = (m.fake_val + (j + 1) + 1) % UINT_MODULUS := by
          simp only [UINT_MODULUS]
          omega
        refine ⟨h1, ?_, ?_⟩
        · rw [h2]
          simp only [harith]
        · rw [h3]
          simp only [harith]

/-- A call that returns a non-negative value found a free slot. -/
theorem free_of_nonneg_ret (m : Module) (c : Call) (r : ReadResult)
    (hr : read_call m c = some r) (hret : 0 ≤ r.ret) : 0 < m.sample_sem.count := by
  rcases aborted_or_acquires_of_returns m c.Ubuff c.count c.offp c.signal c.fault r hr
    with hab | hac
  · exfalso
    unfold read_call at hr
    rw [read_of_aborted m c.Ubuff c.count c.offp c.signal c.fault hab] at hr
    cases hr
    simp at hret
  · exact (acquires_iff m c.signal).1 hac

/-- On a device with a free slot, with destinations that can be written, the
caller of call number `i` (from 0) finds the entry value plus `i + 1`, modulo
`2^32`, in its buffer. -/
theorem delivered_of_free (calls : List Call) (m m1 : Module) (rs : List ReadResult)
    (hm : 0 < m.sample_sem.count) (hrun : run_reads m calls = some (m1, rs))
    (hcopy : ∀ c ∈ calls, c.fault = 0) :
    rs.length = calls.length ∧
    ∀ i, i < calls.length →
      (rs.map delivered)[i]? = some ((m.fake_val + i + 1) % UINT_MODULUS) := by
  obtain ⟨m2, rs2, hrun2, _, _, hlen, hall⟩ := run_reads_of_free calls m hm
  rw [hrun2] at hrun
  cases hrun
  refine ⟨hlen, ?_⟩
  intro i hi
  have hi2 : i < rs.length := by omega
  have hc : calls[i]? = some (calls.get ⟨i, hi⟩) := by simp
  have hr : rs[i]? = some (rs.get ⟨i, hi2⟩) := by simp
  obtain ⟨_, _, hbuf⟩ := hall i _ _ hc hr
  have hf : (calls.get ⟨i, hi⟩).fault = 0 := hcopy _ (List.get_mem calls i hi)
  rw [List.getElem?_map, hr]
  simp only [Option.map_some', Option.some.injEq, delivered]
  rw [hbuf, hf]
  exact uint_at_copy _ _ (Nat.mod_lt _ (by decide))

/-- Calls that all return a non-negative value ran on a device with a free slot
(or there was no call at all). -/
theorem free_of_all_nonneg (m m1 : Module) (c : Call) (cs : List Call) (rs : List ReadResult)
    (hrun : run_reads m (c :: cs) = some (m1, rs)) (hok : ∀ r ∈ rs, 0 ≤ r.ret) :
    0 < m.sample_sem.count := by
  simp only [run_reads] at hrun
  cases hr : read_call m c with
  | none => simp [hr] at hrun
  | some r0 =>
    cases hrest : run_reads r0.m cs with
    | none => simp [hr, hrest] at hrun
    | some p =>
      simp only [hr, hrest, Option.some.injEq, Prod.mk.injEq] at hrun
      apply free_of_nonneg_ret m c r0 hr
      apply hok
      rw [← hrun.2]
      exact List.mem_cons_self _ _

/-- On a device with a free slot every call of a sequence returns 4. -/
theorem ret_of_free (calls : List Call) (m m1 : Module) (rs : List ReadResult)
    (hm : 0 < m.sample_sem.count) (hrun : run_reads m calls = some (m1, rs)) :
    ∀ r ∈ rs, r.ret = 4 := by
  obtain ⟨m2, rs2, hrun2, _, _, hlen, hall⟩ := run_reads_of_free calls m hm
  rw [hrun2] at hrun
  cases hrun
  intro r hr
  obtain ⟨i, hi, hri⟩ := List.mem_iff_getElem.1 hr
  have hic : i < calls.length := by omega
  have hc : calls[i]? = some (calls.get ⟨i, hic⟩) := by simp
  have hr2 : rs[i]? = some r := by
    rw [List.getElem?_eq_getElem hi, hri]
  exact (hall i _ r hc hr2).1

/-- More than `2^32` successful reads in a row cannot all deliver different
values: the first and the one `2^32` calls later deliver the same. -/
theorem wrap_repeats (calls : List Call) (m m1 : Module) (rs : List ReadResult)
    (hm : 0 < m.sample_sem.count) (hrun : run_reads m calls = some (m1, rs))
    (hcopy : ∀ c ∈ calls, c.fault = 0) (hlong : UINT_MODULUS < calls.length) :
    ¬ (rs.map delivered).Nodup := by
  obtain ⟨hlen, hdel⟩ := delivered_of_free calls m m1 rs hm hrun hcopy
  intro hnd
  rw [List.nodup_iff_getElem?_ne_getElem?] at hnd
  have h0 := hdel 0 (by omega)
  have h1 := hdel UINT_MODULUS hlong
  apply hnd 0 UINT_MODULUS (by unfold UINT_MODULUS; omega)
    (by rw [List.length_map, hlen]; exact hlong)
  have e : (m.fake_val + 0 + 1) % UINT_MODULUS
      = (m.fake_val + UINT_MODULUS + 1) % UINT_MODULUS := by
    simp only [UINT_MODULUS]
    omega
  rw [h0, h1, e]

/-- C2, as stated, fails when the counter wraps.  One successful read at
counter `UINT_MAX` delivers 0, not `UINT_MAX + 1`; and `2^32 + 1` successful
reads in a row from counter 0 do not deliver pairwise distinct values. -/
theorem C2_counterexample :
    (∃ m1 r, run_reads ⟨⟨1⟩, 4294967295⟩ [⟨fun _ => 7, 4, 0, false, 0⟩] = some (m1, [r]) ∧
      r.ret = 4 ∧ delivered r = 0 ∧ delivered r ≠ 4294967295 + 1) ∧
    (∃ m1 rs, run_reads ⟨⟨1⟩, 0⟩ (List.replicate 4294967297 ⟨fun _ => 7, 4, 0, false, 0⟩)
        = some (m1, rs) ∧
      (∀ r ∈ rs, r.ret = 4) ∧ ¬ (rs.map delivered).Nodup) := by
  constructor
  · have h : ∃ r, read_call ⟨⟨1⟩, 4294967295⟩ ⟨fun _ => 7, 4, 0, false, 0⟩ = some r ∧
        r.m = ⟨⟨1⟩, 0⟩ ∧ r.ret = 4 ∧ delivered r = 0 :=
      ⟨_, read_of_acquires ⟨⟨1⟩, 4294967295⟩ (fun _ => 7) 4 0 false 0 (by decide),
        by simp [UINT_MODULUS], rfl,
        by simp [UINT_MODULUS, delivered, uint_at, copy_to_user, byte_of]⟩
    obtain ⟨r, hr, hm, hret, hdel⟩ := h
    refine ⟨⟨⟨1⟩, 0⟩, r, ?_, hret, hdel, ?_⟩
    · simp only [run_reads, hr, hm]
    · rw [hdel]
      decide
  · obtain ⟨m1, rs, hrun, _⟩ := run_reads_of_free
      (List.replicate 4294967297 ⟨fun _ => 7, 4, 0, false, 0⟩) ⟨⟨1⟩, 0⟩ Nat.one_pos
    refine ⟨m1, rs, hrun, ret_of_free _ _ _ _ Nat.one_pos hrun, ?_⟩
    apply wrap_repeats _ _ _ _ Nat.one_pos hrun
    · intro c hc
      rw [List.eq_of_mem_replicate hc]
    · rw [List.length_replicate]
      unfold UINT_MODULUS
      omega

/-- C2 (amended): if `N` calls run one after another all succeed (each returns a
non-negative value and its copy completes) and `initial + N` fits an `unsigned
int`, then the `k`-th call delivers `initial + k`, the delivered values are
pairwise distinct, and they are exactly the values from `initial + 1` to
`initial + N`. -/
theorem C2_successful_reads_deliver_contiguous_range (m m1 : Module) (calls : List Call)
    (rs : List ReadResult) (hrun : run_reads m calls = some (m1, rs))
    (hok : ∀ r ∈ rs, 0 ≤ r.ret) (hcopy : ∀ c ∈ calls, c.fault = 0)
    (hfit : m.fake_val + calls.length < UINT_MODULUS) :
    rs.length = calls.length ∧
    (∀ k, 1 ≤ k → k ≤ calls.length → (rs.map delivered)[k - 1]? = some (m.fake_val + k)) ∧
    rs.map delivered = List.range' (m.fake_val + 1) calls.length ∧
    (rs.map delivered).Nodup ∧
    ∀ v, v ∈ rs.map delivered ↔ m.fake_val + 1 ≤ v ∧ v ≤ m.fake_val + calls.length := by
  have key : rs.length = calls.length ∧
      rs.map delivered = List.range' (m.fake_val + 1) calls.length := by
    cases calls with
    | nil =>
      simp only [run_reads, Option.some.injEq, Prod.mk.injEq] at hrun
      rw [← hrun.2]
      simp
    | cons c cs =>
      have hm := free_of_all_nonneg m m1 c cs rs hrun hok
      obtain ⟨hlen, hdel⟩ := delivered_of_free (c :: cs) m m1 rs hm hrun hcopy
      refine ⟨hlen, ?_⟩
      apply List.ext_getElem?
      intro i
      by_cases hi : i < (c :: cs).length
      · rw [hdel i hi, List.getElem?_range' _ _ hi]
        congr 1
        rw [Nat.mod_eq_of_lt (by omega)]
        omega
      · rw [List.getElem?_eq_none (by rw [List.length_map, hlen]; omega),
          List.getElem?_eq_none (by rw [List.length_range']; omega)]
  obtain ⟨hlen, hmap⟩ := key
  refine ⟨hlen, ?_, hmap, ?_, ?_⟩
  · intro k h1 hk
    rw [hmap, List.getElem?_range' _ _ (by omega)]
    congr 1
    omega
  · rw [hmap]
    exact List.nodup_range' _ _
  · intro v
    rw [hmap, List.mem_range'_1]
    omega

/-- C2 (amended) for two reads on the initialised device: 11 and 12 are delivered. -/
theorem C2_successful_reads_deliver_contiguous_range_witness :
    run_reads synch_semaphore_init [writable_call, writable_call]
      = some (⟨⟨1⟩, 12⟩, [acquired_result 11 writable_call, acquired_result 12 writable_call]) ∧
    [acquired_result 11 writable_call, acquired_result 12 writable_call].length = 2 ∧
    [delivered (acquired_result 11 writable_call), delivered (acquired_result 12 writable_call)]
      = List.range' (10 + 1) 2 ∧
    [delivered (acquired_result 11 writable_call),
      delivered (acquired_result 12 writable_call)].Nodup :=
  have hrun : run_reads synch_semaphore_init [writable_call, writable_call]
      = some (⟨⟨1⟩, 12⟩,
          [acquired_result 11 writable_call, acquired_result 12 writable_call]) := rfl
  have hall := C2_successful_reads_deliver_contiguous_range synch_semaphore_init ⟨⟨1⟩, 12⟩
    [writable_call, writable_call] _ hrun
    (by simp [acquired_result]) (by simp [writable_call]) (by decide)
  ⟨hrun, hall.1, hall.2.2.1, hall.2.2.2.1⟩

/-- What a call that returns a non-negative value did, by components. -/
theorem read_call_of_nonneg_ret (m : Module) (c : Call) (r : ReadResult)
    (hr : read_call m c = some r) (hret : 0 ≤ r.ret) :
    0 < m.sample_sem.count ∧ r.ret = 4 ∧
    r.m = ⟨m.sample_sem, (m.fake_val + 1) % UINT_MODULUS⟩ ∧
    r.Ubuff = (copy_to_user c.Ubuff (byte_of ((m.fake_val + 1) % UINT_MODULUS)) 4 c.fault).2 := by
  have hm := free_of_nonneg_ret m c r hr hret
  unfold read_call at hr
  rw [read_of_acquires m c.Ubuff c.count c.offp c.signal c.fault
    ((acquires_iff m c.signal).2 hm)] at hr
  cases hr
  exact ⟨hm, rfl, rfl, rfl⟩

/-- C8, as stated, fails at the wrap of the counter: with the counter at
`UINT_MAX - 1`, two successful reads in a row deliver `UINT_MAX` and then 0. -/
theorem C8_counterexample :
    ∃ r1 r2, synch_semaphore_read ⟨⟨1⟩, 4294967294⟩ (fun _ => 7) 4 0 false 0 = some r1 ∧
      synch_semaphore_read r1.m (fun _ => 7) 4 0 false 0 = some r2 ∧
      r1.ret = 4 ∧ r2.ret = 4 ∧
      delivered r1 = 4294967295 ∧ delivered r2 = 0 ∧ ¬ delivered r1 < delivered r2 := by
  refine ⟨_, _, read_of_acquires ⟨⟨1⟩, 4294967294⟩ (fun _ => 7) 4 0 false 0 (by decide),
    read_of_acquires _ (fun _ => 7) 4 0 false 0 ((acquires_iff _ _).2 Nat.one_pos), ?_⟩
  simp [UINT_MODULUS, delivered, uint_at, copy_to_user, byte_of]

/-- C8 (amended): take a successful read, any calls after it, and then another
successful read (successful: non-negative return value and a copy that
completes).  The first delivers `(c + 1) mod 2^32` and the second
`(c + 2 + n) mod 2^32`, where `c` is the counter before the first and `n` the
number of calls in between; so whenever `c + 2 + n` fits an `unsigned int`
(the counter does not wrap on the way) the later value is strictly greater,
and for two reads in a row it is greater by exactly one. -/
theorem C8_later_read_delivers_more (m m2 : Module) (c1 c2 : Call) (mid : List Call)
    (r1 r2 : ReadResult) (rs : List ReadResult)
    (h1 : read_call m c1 = some r1) (hmid : run_reads r1.m mid = some (m2, rs))
    (h2 : read_call m2 c2 = some r2)
    (hok1 : 0 ≤ r1.ret) (hok2 : 0 ≤ r2.ret) (hcopy1 : c1.fault = 0) (hcopy2 : c2.fault = 0) :
    delivered r1 = (m.fake_val + 1) % UINT_MODULUS ∧
    delivered r2 = (m.fake_val + 2 + mid.length) % UINT_MODULUS ∧
    (m.fake_val + 2 + mid.length < UINT_MODULUS →
      delivered r1 < delivered r2 ∧ delivered r2 = delivered r1 + 1 + mid.length) := by
  obtain ⟨hm, _, hm1, hbuf1⟩ := read_call_of_nonneg_ret m c1 r1 h1 hok1
  obtain ⟨_, _, hm2, hbuf2⟩ := read_call_of_nonneg_ret m2 c2 r2 h2 hok2
  have hfree1 : 0 < r1.m.sample_sem.count := by rw [hm1]; exact hm
  obtain ⟨m3, rs3, hrun3, _, hval3, _, _⟩ := run_reads_of_free mid r1.m hfree1
  rw [hrun3] at hmid
  cases hmid
  have hd1 : delivered r1 = (m.fake_val + 1) % UINT_MODULUS := by
    unfold delivered
    rw [hbuf1, hcopy1]
    exact uint_at_copy _ _ (Nat.mod_lt _ (by decide))
  have hd2 : delivered r2 = (m2.fake_val + 1) % UINT_MODULUS := by
    unfold delivered
    rw [hbuf2, hcopy2]
    exact uint_at_copy _ _ (Nat.mod_lt _ (by decide))
  have hv : (m2.fake_val + 1) % UINT_MODULUS
      = (m.fake_val + 2 + mid.length) % UINT_MODULUS := by
    rw [hm1] at hval3
    simp only [UINT_MODULUS] at hval3 ⊢
    omega
  refine ⟨hd1, hd2.trans hv, ?_⟩
  intro hfit
  rw [hd1, hd2, hv]
  simp only [UINT_MODULUS] at hfit ⊢
  omega

/-- C8 (amended) on the initialised device: a successful read, a read whose copy
fails and another successful read; the two successful ones deliver 11 and 13. -/
theorem C8_later_read_delivers_more_witness :
    read_call synch_semaphore_init writable_call = some (acquired_result 11 writable_call) ∧
    run_reads (acquired_result 11 writable_call).m [unwritable_call]
      = some (⟨⟨1⟩, 12⟩, [acquired_result 12 unwritable_call]) ∧
    read_call ⟨⟨1⟩, 12⟩ writable_call = some (acquired_result 13 writable_call) ∧
    delivered (acquired_result 11 writable_call) = (10 + 1) % UINT_MODULUS ∧
    delivered (acquired_result 13 writable_call) = (10 + 2 + 1) % UINT_MODULUS ∧
    delivered (acquired_result 11 writable_call) < delivered (acquired_result 13 writable_call) ∧
    delivered (acquired_result 13 writable_call)
      = delivered (acquired_result 11 writable_call) + 1 + 1 :=
  have hall := C8_later_read_delivers_more synch_semaphore_init ⟨⟨1⟩, 12⟩
    writable_call writable_call [unwritable_call]
    (acquired_result 11 writable_call) (acquired_result 13 writable_call)
    [acquired_result 12 unwritable_call]
    rfl rfl rfl (by decide) (by decide) rfl rfl
  ⟨rfl, rfl, rfl, hall.1, hall.2.1, (hall.2.2 (by decide)).1, (hall.2.2 (by decide)).2⟩

/-- C9, as stated, fails at the wrap of the counter: with the counter at
`UINT_MAX`, a read whose copy fails leaves the counter at 0, not at
`UINT_MAX + 1`, and the next successful read delivers 1, not `UINT_MAX + 2`. -/
theorem C9_counterexample :
    acquires ⟨⟨1⟩, 4294967295⟩ false = true ∧
    ∃ r r2, synch_semaphore_read ⟨⟨1⟩, 4294967295⟩ (fun _ => 7) 4 0 false 4 = some r ∧
      Event.copy 0 4 4 ∈ r.trace ∧
      r.m.fake_val = 0 ∧ r.m.fake_val ≠ 4294967295 + 1 ∧
      synch_semaphore_read r.m (fun _ => 7) 4 0 false 0 = some r2 ∧
      delivered r2 = 1 ∧ delivered r2 ≠ 4294967295 + 2 := by
  refine ⟨by decide, _, _,
    read_of_acquires ⟨⟨1⟩, 4294967295⟩ (fun _ => 7) 4 0 false 4 (by decide), ?_, ?_, ?_,
    read_of_acquires _ (fun _ => 7) 4 0 false 0 ((acquires_iff _ _).2 Nat.one_pos), ?_⟩ <;>
  simp [UINT_MODULUS, delivered, uint_at, copy_to_user, byte_of]

/-- C9 (amended): when a call acquires the semaphore at counter value `c` and
its copy fails, the call still returns and leaves the counter at
`(c + 1) mod 2^32` (that is `c + 1` when this fits an `unsigned int`): the
increment is not rolled back.  The bytes reported uncopied, the last byte of
the value at least, are not written to the caller's buffer (it is untouched
when nothing could be written).  The next successful read delivers
`(c + 2) mod 2^32`; and in any following sequence of calls on which the
counter does not wrap, every read whose copy completes delivers a value
above `c + 1`, namely `c + 2 + i` for call number `i` (from 0). -/
theorem C9_failed_copy_keeps_increment (m : Module) (Ubuff : Nat → Nat) (count : Nat)
    (offp : Int) (signal : Bool) (fault : Nat) (h : acquires m signal = true)
    (hfail : 0 < (copy_to_user Ubuff (byte_of ((m.fake_val + 1) % UINT_MODULUS))
      SIZEOF_FAKE_VAL fault).1) :
    ∃ r, synch_semaphore_read m Ubuff count offp signal fault = some r ∧
      r.m.fake_val = (m.fake_val + 1) % UINT_MODULUS ∧
      (m.fake_val + 1 < UINT_MODULUS → r.m.fake_val = m.fake_val + 1) ∧
      (∀ i, 4 - min fault 4 ≤ i → r.Ubuff i = Ubuff i) ∧
      r.Ubuff 3 = Ubuff 3 ∧
      (4 ≤ fault → r.Ubuff = Ubuff) ∧
      (∀ c2 : Call, c2.fault = 0 →
        ∃ r2, read_call r.m c2 = some r2 ∧
          delivered r2 = (m.fake_val + 2) % UINT_MODULUS ∧
          (m.fake_val + 2 < UINT_MODULUS → delivered r2 = m.fake_val + 2)) ∧
      (∀ (calls : List Call) (m1 : Module) (rs : List ReadResult),
        run_reads r.m calls = some (m1, rs) →
        m.fake_val + 1 + calls.length < UINT_MODULUS →
        ∀ i c2 r2, calls[i]? = some c2 → rs[i]? = some r2 → c2.fault = 0 →
          delivered r2 = m.fake_val + 2 + i ∧ m.fake_val + 1 < delivered r2) := by
  have hc : 0 < m.sample_sem.count := (acquires_iff m signal).1 h
  have hf : 0 < min fault 4 := by
    simpa [copy_to_user, SIZEOF_FAKE_VAL] using hfail
  refine ⟨_, read_of_acquires m Ubuff count offp signal fault h, rfl, ?_, ?_, ?_, ?_, ?_, ?_⟩
  · intro hlt
    exact Nat.mod_eq_of_lt hlt
  · intro i hi
    have : ¬ i < 4 - min fault 4 := by omega
    simp [copy_to_user, this]
  · have : ¬ 3 < 4 - min fault 4 := by omega
    simp [copy_to_user, this]
  · intro h4
    funext i
    have : min fault 4 = 4 := by omega
    simp [copy_to_user, this]
  · intro c2 hc2
    have hac2 : acquires ⟨m.sample_sem, (m.fake_val + 1) % UINT_MODULUS⟩ c2.signal = true :=
      (acquires_iff _ _).2 hc
    have hd : delivered ⟨4, ⟨m.sample_sem,
          ((m.fake_val + 1) % UINT_MODULUS + 1) % UINT_MODULUS⟩,
        (copy_to_user c2.Ubuff
          (byte_of (((m.fake_val + 1) % UINT_MODULUS + 1) % UINT_MODULUS)) 4 c2.fault).2,
        c2.offp,
        [Event.printk, Event.down 0, Event.msleep 5000,
         Event.incr (((m.fake_val + 1) % UINT_MODULUS + 1) % UINT_MODULUS),
         Event.copy (((m.fake_val + 1) % UINT_MODULUS + 1) % UINT_MODULUS) 4
           (min c2.fault 4), Event.up]⟩ = (m.fake_val + 2) % UINT_MODULUS := by
      unfold delivered
      simp only [hc2]
      rw [uint_at_copy _ _ (Nat.mod_lt _ (by decide))]
      simp only [UINT_MODULUS]
      omega
    refine ⟨_, read_of_acquires _ c2.Ubuff c2.count c2.offp c2.signal c2.fault hac2, hd, ?_⟩
    intro hlt
    rw [hd]
    exact Nat.mod_eq_of_lt hlt
  · intro calls m1 rs hrun hfit i c2 r2 hci hri hc2
    obtain ⟨m3, rs3, hrun3, _, _, hlen, hall⟩ :=
      run_reads_of_free calls ⟨m.sample_sem, (m.fake_val + 1) % UINT_MODULUS⟩ hc
    rw [hrun3] at hrun
    cases hrun
    obtain ⟨_, _, hbuf⟩ := hall i c2 r2 hci hri
    have hi : i < calls.length := by
      rcases List.getElem?_eq_some.1 hci with ⟨hlt, _⟩
      exact hlt
    have hd : delivered r2 = m.fake_val + 2 + i := by
      unfold delivered
      rw [hbuf, hc2, uint_at_copy _ _ (Nat.mod_lt _ (by decide))]
      simp only [UINT_MODULUS] at hfit ⊢
      omega
    exact ⟨hd, by omega⟩

/-- C9 (amended) on the initialised device, with a destination that cannot be
written: the counter is left at 11, the buffer is untouched, and the next
successful read delivers 12. -/
theorem C9_failed_copy_keeps_increment_witness :
    acquires synch_semaphore_init false = true ∧
    0 < (copy_to_user (fun _ => 7) (byte_of ((synch_semaphore_init.fake_val + 1) % UINT_MODULUS))
      SIZEOF_FAKE_VAL 4).1 ∧
    ∃ r, synch_semaphore_read synch_semaphore_init (fun _ => 7) 4 0 false 4 = some r ∧
      r.m.fake_val = (synch_semaphore_init.fake_val + 1) % UINT_MODULUS ∧
      (synch_semaphore_init.fake_val + 1 < UINT_MODULUS →
        r.m.fake_val = synch_semaphore_init.fake_val + 1) ∧
      (∀ i, 4 - min 4 4 ≤ i → r.Ubuff i = (fun _ => 7) i) ∧
      r.Ubuff 3 = (fun _ => 7) 3 ∧
      (4 ≤ 4 → r.Ubuff = (fun _ => 7)) ∧
      (∀ c2 : Call, c2.fault = 0 →
        ∃ r2, read_call r.m c2 = some r2 ∧
          delivered r2 = (synch_semaphore_init.fake_val + 2) % UINT_MODULUS ∧
          (synch_semaphore_init.fake_val + 2 < UINT_MODULUS →
            delivered r2 = synch_semaphore_init.fake_val + 2)) ∧
      (∀ (calls : List Call) (m1 : Module) (rs : List ReadResult),
        run_reads r.m calls = some (m1, rs) →
        synch_semaphore_init.fake_val + 1 + calls.length < UINT_MODULUS →
        ∀ i c2 r2, calls[i]? = some c2 → rs[i]? = some r2 → c2.fault = 0 →
          delivered r2 = synch_semaphore_init.fake_val + 2 + i ∧
          synch_semaphore_init.fake_val + 1 < delivered r2) :=
  ⟨by decide, by decide,
   C9_failed_copy_keeps_increment synch_semaphore_init (fun _ => 7) 4 0 false 4
     (by decide) (by decide)⟩

/-! ## Interleaved callers: mutual exclusion -/

theorem mutexInv_init : MutexInv System.init := by
  unfold MutexInv
  left
  refine ⟨rfl, ?_⟩
  intro i t h
  simp [System.init] at h

/-- What one statement does to the program counter and to the semaphore. -/
theorem thread_step_cases (m m1 : Module) (t t1 : Thread) (signal : Bool) (fault : Nat)
    (h : thread_step m t signal fault = some (m1, t1)) :
    (t.pc = PC.entry ∧ 0 < m.sample_sem.count ∧ t1.pc = PC.held ∧
      m1.sample_sem.count = m.sample_sem.count - 1 ∧ m1.fake_val = m.fake_val) ∨
    (t.pc = PC.entry ∧ m.sample_sem.count = 0 ∧ t1.pc = PC.returned (-ERESTARTSYS) ∧ m1 = m) ∨
    (holds t.pc = true ∧ holds t1.pc = true ∧ m1.sample_sem = m.sample_sem) ∨
    (t.pc = PC.copied ∧ t1.pc = PC.returned (SIZEOF_FAKE_VAL : Int) ∧
      m1.sample_sem.count = m.sample_sem.count + 1 ∧ m1.fake_val = m.fake_val) := by
  unfold thread_step at h
  cases hpc : t.pc with
  | entry =>
    rw [hpc] at h
    simp only [down_interruptible] at h
    by_cases hc : 0 < m.sample_sem.count
    · left
      simp only [hc, if_true] at h
      simp at h
      obtain ⟨h1, h2⟩ := h
      subst h1
      subst h2
      exact ⟨rfl, hc, rfl, rfl, rfl⟩
    · right; left
      have h0 : m.sample_sem.count = 0 := by omega
      cases signal with
      | false => simp [hc] at h
      | true =>
        simp [hc, EINTR] at h
        obtain ⟨h1, h2⟩ := h
        subst h1
        subst h2
        exact ⟨rfl, h0, rfl, rfl⟩
  | held =>
    rw [hpc] at h
    simp at h
    obtain ⟨h1, h2⟩ := h
    subst h1
    subst h2
    right; right; left
    exact ⟨rfl, rfl, rfl⟩
  | slept =>
    rw [hpc] at h
    simp at h
    obtain ⟨h1, h2⟩ := h
    subst h1
    subst h2
    right; right; left
    exact ⟨rfl, rfl, rfl⟩
  | incremented =>
    rw [hpc] at h
    simp at h
    obtain ⟨h1, h2⟩ := h
    subst h1
    subst h2
    right; right; left
    exact ⟨rfl, rfl, rfl⟩
  | copied =>
    rw [hpc] at h
    simp at h
    obtain ⟨h1, h2⟩ := h
    subst h1
    subst h2
    right; right; right
    exact ⟨rfl, rfl, rfl, rfl⟩
  | returned ret =>
    rw [hpc] at h
    simp at h

theorem getElem?_set_of_some {α : Type} (l : List α) (i j : Nat) (a b : α)
    (h : l[i]? = some b) : (l.set i a)[j]? = if i = j then some a else l[j]? := by
  have hi : i < l.length := by
    rcases List.getElem?_eq_some.1 h with ⟨hlt, _⟩
    exact hlt
  rw [List.getElem?_set]
  simp [hi]

theorem getElem?_append_single {α : Type} (l : List α) (a u : α) (j : Nat)
    (h : (l ++ [a])[j]? = some u) : l[j]? = some u ∨ u = a := by
  by_cases hj : j < l.length
  · left
    rw [List.getElem?_append_left hj] at h
    exact h
  · right
    rw [List.getElem?_append_right (by omega)] at h
    have : j - l.length = 0 := by
      by_contra hne
      have hlen : ([a] : List α).length ≤ j - l.length := by
        simp only [List.length_singleton]
        omega
      rw [List.getElem?_eq_none hlen] at h
      cases h
    rw [this] at h
    simp only [List.getElem?_cons_zero, Option.some.injEq] at h
    exact h.symm

/-- Every move of the system keeps `MutexInv`. -/
theorem mutexInv_step (s s1 : System) (hinv : MutexInv s) (hstep : Step s s1) :
    MutexInv s1 := by
  cases hstep with
  | call Ubuff =>
    rcases hinv with ⟨hc, hall⟩ | ⟨hc, k, tk, hk, hhold, hothers⟩
    · left
      refine ⟨hc, ?_⟩
      intro j u hu
      rcases getElem?_append_single _ _ _ _ hu with h | h
      · exact hall j u h
      · rw [h]; rfl
    · right
      refine ⟨hc, k, tk, ?_, hhold, ?_⟩
      · have hklt : k < s.threads.length := by
          rcases List.getElem?_eq_some.1 hk with ⟨hlt, _⟩
          exact hlt
        show (s.threads ++ _)[k]? = some tk
        rw [List.getElem?_append_left hklt]
        exact hk
      · intro j u hj hu
        rcases getElem?_append_single _ _ _ _ hu with h | h
        · exact hothers j u hj h
        · rw [h]; rfl
  | run i t signal fault m1 t1 hi hts =>
    have hset : ∀ j, (s.threads.set i t1)[j]? = if i = j then some t1 else s.threads[j]? :=
      fun j => getElem?_set_of_some s.threads i j t1 t hi
    rcases thread_step_cases s.m m1 t t1 signal fault hts with
      ⟨hpc, hfree, hpc1, hcnt, _⟩ | ⟨hpc, _, hpc1, hm⟩ | ⟨hh, hh1, hsem⟩ | ⟨hpc, hpc1, hcnt, _⟩
    · -- the caller takes the semaphore
      rcases hinv with ⟨hc, hall⟩ | ⟨hc, _⟩
      · right
        refine ⟨by show m1.sample_sem.count = 0; omega, i, t1, ?_, by rw [hpc1]; rfl, ?_⟩
        · show (s.threads.set i t1)[i]? = some t1
          rw [hset]; simp
        · intro j u hj hu
          have hu2 : (s.threads.set i t1)[j]? = some u := hu
          rw [hset, if_neg (fun e => hj e.symm)] at hu2
          exact hall j u hu2
      · omega
    · -- the wait of the caller is aborted
      have hnh : holds t.pc = false := by rw [hpc]; rfl
      have hnh1 : holds t1.pc = false := by rw [hpc1]; rfl
      rcases hinv with ⟨hc, hall⟩ | ⟨hc, k, tk, hk, hhold, hothers⟩
      · left
        refine ⟨by show m1.sample_sem.count = 1; rw [hm]; exact hc, ?_⟩
        intro j u hu
        have hu2 : (s.threads.set i t1)[j]? = some u := hu
        rw [hset] at hu2
        by_cases hij : i = j
        · rw [if_pos hij] at hu2
          cases hu2
          exact hnh1
        · rw [if_neg hij] at hu2
          exact hall j u hu2
      · right
        have hki : i ≠ k := by
          intro e
          rw [e, hk] at hi
          cases hi
          rw [hnh] at hhold
          cases hhold
        refine ⟨by show m1.sample_sem.count = 0; rw [hm]; exact hc, k, tk, ?_, hhold, ?_⟩
        · show (s.threads.set i t1)[k]? = some tk
          rw [hset, if_neg hki]
          exact hk
        · intro j u hj hu
          have hu2 : (s.threads.set i t1)[j]? = some u := hu
          rw [hset] at hu2
          by_cases hij : i = j
          · rw [if_pos hij] at hu2
            cases hu2
            exact hnh1
          · rw [if_neg hij] at hu2
            exact hothers j u hj hu2
    · -- a statement inside the critical section, before the release
      rcases hinv with ⟨_, hall⟩ | ⟨hc, k, tk, hk, hhold, hothers⟩
      · have := hall i t hi
        rw [this] at hh
        cases hh
      · have hki : i = k := by
          by_contra hne
          have := hothers i t hne hi
          rw [this] at hh
          cases hh
        subst hki
        right
        refine ⟨by show m1.sample_sem.count = 0; rw [hsem]; exact hc, i, t1, ?_, hh1, ?_⟩
        · show (s.threads.set i t1)[i]? = some t1
          rw [hset]; simp
        · intro j u hj hu
          have hu2 : (s.threads.set i t1)[j]? = some u := hu
          rw [hset, if_neg (fun e => hj e.symm)] at hu2
          exact hothers j u hj hu2
    · -- the release
      have hh : holds t.pc = true := by rw [hpc]; rfl
      have hnh1 : holds t1.pc = false := by rw [hpc1]; rfl
      rcases hinv with ⟨_, hall⟩ | ⟨hc, k, tk, hk, hhold, hothers⟩
      · have := hall i t hi
        rw [this] at hh
        cases hh
      · have hki : i = k := by
          by_contra hne
          have := hothers i t hne hi
          rw [this] at hh
          cases hh
        subst hki
        left
        refine ⟨by show m1.sample_sem.count = 1; omega, ?_⟩
        intro j u hu
        have hu2 : (s.threads.set i t1)[j]? = some u := hu
        rw [hset] at hu2
        by_cases hij : i = j
        · rw [if_pos hij] at hu2
          cases hu2
          exact hnh1
        · rw [if_neg hij] at hu2
          exact hothers j u (fun e => hij e.symm) hu2

theorem mutexInv_of_reachable (s : System) (h : Reachable s) : MutexInv s := by
  induction h with
  | init => exact mutexInv_init
  | step s s1 _ hstep ih => exact mutexInv_step s s1 ih hstep

theorem reachable_two_callers : Reachable two_callers :=
  Reachable.step _ _
    (Reachable.step _ _
      (Reachable.step _ _ Reachable.init (Step.call System.init (fun _ => 7)))
      (Step.call _ (fun _ => 7)))
    (Step.run ⟨synch_semaphore_init, [⟨PC.entry, fun _ => 7, []⟩, ⟨PC.entry, fun _ => 7, []⟩]⟩
      0 ⟨PC.entry, fun _ => 7, []⟩ false 0 ⟨⟨0⟩, 10⟩
      ⟨PC.held, fun _ => 7, [Event.printk, Event.down 0]⟩ rfl rfl)

/-- C7: in every state the device initialised by `synch_semaphore_init` can
reach, under any interleaving of the statements of any number of callers,
the semaphore count is 0 or 1; at most one caller is between its successful
`down_interruptible` and its `up`; there is such a caller exactly when the
count is 0; a caller whose next statement reads or writes `fake_val` is that
single holder; and a statement that changes `fake_val` is executed by the
holder only. -/
theorem C7_mutual_exclusion (s : System) (h : Reachable s) :
    (s.m.sample_sem.count = 0 ∨ s.m.sample_sem.count = 1) ∧
    (∀ i j, holder s i → holder s j → i = j) ∧
    (s.m.sample_sem.count = 1 → ∀ i, ¬ holder s i) ∧
    (s.m.sample_sem.count = 0 → ∃ i, holder s i) ∧
    (∀ (i : Nat) (t : Thread), s.threads[i]? = some t → touches_counter t.pc = true →
      holder s i ∧ ∀ j, holder s j → j = i) ∧
    (∀ (i : Nat) (t : Thread) (signal : Bool) (fault : Nat) (m1 : Module) (t1 : Thread),
      s.threads[i]? = some t → thread_step s.m t signal fault = some (m1, t1) →
      m1.fake_val ≠ s.m.fake_val → holder s i ∧ ∀ j, holder s j → j = i) := by
  have hinv := mutexInv_of_reachable s h
  have huniq : ∀ i j, holder s i → holder s j → i = j := by
    intro i j ⟨ti, hti, hhi⟩ ⟨tj, htj, hhj⟩
    rcases hinv with ⟨_, hall⟩ | ⟨_, k, tk, _, _, hothers⟩
    · have := hall i ti hti
      rw [this] at hhi
      cases hhi
    · have hik : i = k := by
        by_contra hne
        have := hothers i ti hne hti
        rw [this] at hhi
        cases hhi
      have hjk : j = k := by
        by_contra hne
        have := hothers j tj hne htj
        rw [this] at hhj
        cases hhj
      rw [hik, hjk]
  refine ⟨?_, huniq, ?_, ?_, ?_, ?_⟩
  · rcases hinv with ⟨hc, _⟩ | ⟨hc, _⟩
    · exact Or.inr hc
    · exact Or.inl hc
  · intro hc i ⟨ti, hti, hhi⟩
    rcases hinv with ⟨_, hall⟩ | ⟨hc0, _⟩
    · have := hall i ti hti
      rw [this] at hhi
      cases hhi
    · omega
  · intro hc
    rcases hinv with ⟨hc1, _⟩ | ⟨_, k, tk, hk, hhold, _⟩
    · omega
    · exact ⟨k, tk, hk, hhold⟩
  · intro i t hi htouch
    have hh : holds t.pc = true := by
      cases hpc : t.pc <;> rw [hpc] at htouch <;> first | rfl | cases htouch
    exact ⟨⟨t, hi, hh⟩, fun j hj => huniq j i hj ⟨t, hi, hh⟩⟩
  · intro i t signal fault m1 t1 hi hts hne
    have hh : holds t.pc = true := by
      rcases thread_step_cases s.m m1 t t1 signal fault hts with
        ⟨_, _, _, _, hv⟩ | ⟨_, _, _, hm⟩ | ⟨hh, _, _⟩ | ⟨_, _, _, hv⟩
      · exact absurd hv hne
      · rw [hm] at hne
        exact absurd rfl hne
      · exact hh
      · exact absurd hv hne
    exact ⟨⟨t, hi, hh⟩, fun j hj => huniq j i hj ⟨t, hi, hh⟩⟩

/-- C7 at a reachable state with two callers, one of them holding the semaphore. -/
theorem C7_mutual_exclusion_witness :
    Reachable two_callers ∧
    (two_callers.m.sample_sem.count = 0 ∨ two_callers.m.sample_sem.count = 1) ∧
    (∀ i j, holder two_callers i → holder two_callers j → i = j) ∧
    (∃ i, holder two_callers i) :=
  ⟨reachable_two_callers,
   (C7_mutual_exclusion two_callers reachable_two_callers).1,
   (C7_mutual_exclusion two_callers reachable_two_callers).2.1,
   (C7_mutual_exclusion two_callers reachable_two_callers).2.2.2.1 rfl⟩

end SynchSemaphore
